import Mathlib

/-!
Verification development for the metha OAI-PMH incremental harvester
(`harvest.go`).  The Go source is shallowly embedded: pure helpers become
Lean functions, the filesystem and the OAI transport become explicit data
(a list of directory entries, a script of responses), and fallible Go code
returns `Except`/`Option`.  Machine integers that can be negative in Go
(`MaxRequests`, `MaxEmptyResponses`) are embedded as `Int`; counters that
only ever grow from zero (`i`, `empty`) as `Nat`.
-/

namespace Metha

/-- A decimal digit rendered as a character, as Go's zero-padded `%d`
formatting does. -/
def digitChar (n : Nat) : Char := Char.ofNat (48 + n)

/-- Accept an ASCII digit, as Go `time.Parse` does for numeric fields. -/
def digit? (c : Char) : Option Nat :=
  if 48 ≤ c.toNat ∧ c.toNat ≤ 57 then some (c.toNat - 48) else none

/-- Gregorian leap-year rule (Go `time` package semantics). -/
def isLeap (y : Nat) : Bool := (y % 4 == 0 && y % 100 != 0) || y % 400 == 0

/-- Number of days in a month (month out of range is never consulted by
valid dates; 31 is a harmless default). -/
def daysInMonth (y m : Nat) : Nat :=
  match m with
  | 2 => if isLeap y then 29 else 28
  | 4 => 30
  | 6 => 30
  | 9 => 30
  | 11 => 30
  | _ => 31

/-- A calendar date as Go `time.Time` exposes it at day granularity. -/
structure Date where
  y : Nat
  m : Nat
  d : Nat
deriving DecidableEq, Repr

/-- A well-formed calendar date. -/
def Date.Valid (dt : Date) : Prop :=
  1 ≤ dt.m ∧ dt.m ≤ 12 ∧ 1 ≤ dt.d ∧ dt.d ≤ daysInMonth dt.y dt.m

instance (dt : Date) : Decidable dt.Valid := by
  unfold Date.Valid; infer_instance

/-- Go `t.AddDate(0, 0, 1)` on a valid date. -/
def nextDay (dt : Date) : Date :=
  if dt.d < daysInMonth dt.y dt.m then ⟨dt.y, dt.m, dt.d + 1⟩
  else if dt.m < 12 then ⟨dt.y, dt.m + 1, 1⟩
  else ⟨dt.y + 1, 1, 1⟩

/-- Go `t.AddDate(0, 0, -1)` on a valid date. -/
def prevDay (dt : Date) : Date :=
  if 1 < dt.d then ⟨dt.y, dt.m, dt.d - 1⟩
  else if 1 < dt.m then ⟨dt.y, dt.m - 1, daysInMonth dt.y (dt.m - 1)⟩
  else ⟨dt.y - 1, 12, 31⟩

/-- Go `t.Format("2006-01-02")`: zero-padded `YYYY-MM-DD`. -/
def formatDate (dt : Date) : String :=
  String.mk [digitChar (dt.y / 1000 % 10), digitChar (dt.y / 100 % 10),
    digitChar (dt.y / 10 % 10), digitChar (dt.y % 10), '-',
    digitChar (dt.m / 10 % 10), digitChar (dt.m % 10), '-',
    digitChar (dt.d / 10 % 10), digitChar (dt.d % 10)]

/-- Zero-padded two-digit field, as in Go's reference-time formatting. -/
def pad2 (n : Nat) : String := String.mk [digitChar (n / 10 % 10), digitChar (n % 10)]

/-- A point in time at second resolution, the part of Go `time.Time` this
program observes (metha never formats below seconds). -/
structure DateTime where
  date : Date
  hh : Nat
  mm : Nat
  ss : Nat
deriving DecidableEq, Repr

/-- Go `time.Parse("2006-01-02", s)`: exactly ten characters
`YYYY-MM-DD`, digits in range, day checked against the month. -/
def parseDay10 (s : String) : Option Date :=
  match s.toList with
  | [y1, y2, y3, y4, c1, m1, m2, c2, d1, d2] =>
    if c1 = '-' ∧ c2 = '-' then
      match digit? y1, digit? y2, digit? y3, digit? y4,
            digit? m1, digit? m2, digit? d1, digit? d2 with
      | some a, some b, some c, some d, some e, some f, some g, some h =>
        if 1 ≤ e * 10 + f ∧ e * 10 + f ≤ 12 ∧ 1 ≤ g * 10 + h ∧
            g * 10 + h ≤ daysInMonth (((a * 10 + b) * 10 + c) * 10 + d) (e * 10 + f) then
          some ⟨((a * 10 + b) * 10 + c) * 10 + d, e * 10 + f, g * 10 + h⟩
        else none
      | _, _, _, _, _, _, _, _ => none
    else none
  | _ => none

/-- Go `time.Parse("2006-01-02T15:04:05Z", s)`: exactly twenty
characters, a day followed by `Thh:mm:ssZ` with fields in range. -/
def parseRFC3339Z (s : String) : Option DateTime :=
  match parseDay10 (String.mk (s.toList.take 10)) with
  | none => none
  | some d =>
    match s.toList.drop 10 with
    | ['T', h1, h2, ':', n1, n2, ':', x1, x2, 'Z'] =>
      match digit? h1, digit? h2, digit? n1, digit? n2, digit? x1, digit? x2 with
      | some a, some b, some c, some e, some f, some g =>
        if a * 10 + b ≤ 23 ∧ c * 10 + e ≤ 59 ∧ f * 10 + g ≤ 59 then
          some ⟨d, a * 10 + b, c * 10 + e, f * 10 + g⟩
        else none
      | _, _, _, _, _, _ => none
    | _ => none

/-- Go string slicing `s[:n]` as used on the ASCII datestamps this
program handles. -/
def strTake (s : String) (n : Nat) : String := String.mk (s.toList.take n)

/-- Go `t.Format(layout)` restricted to the three layouts this program
produces (`DateLayout` returns one of them).  Go renders an empty layout
as the empty string; an unrecognized literal layout renders as itself. -/
def formatTime (layout : String) (t : DateTime) : String :=
  match layout with
  | "" => ""
  | "2006-01-02" => formatDate t.date
  | "2006-01-02T15:04:05Z" =>
      formatDate t.date ++ "T" ++ pad2 t.hh ++ ":" ++ pad2 t.mm ++ ":" ++ pad2 t.ss ++ "Z"
  | l => l

/-- The Go `error` values this program creates or inspects.  `multi`
embeds `MultiError` (a slice of errors); Go permits `nil` entries in that
slice, hence `Option`. -/
inductive GoErr where
  | pathENOENT (p : String)
  | other (msg : String)
  | parseTime (layout s : String)
  | oaiError (code : String)
  | alreadySynced
  | invalidEarliestDate
  | multi (es : List (Option GoErr))

/-- The two Identify fields the harvester consumes (the full Identify
response carries more, all unused here). -/
structure Identify where
  Granularity : String
  EarliestDatestamp : String
deriving DecidableEq, Repr

/-- The `Harvest` struct of `harvest.go` (its mutex and the cached
network client are concurrency machinery with no bearing on the
embedded logic).  `baseDir` stands for the process-wide `BaseDir`
variable, passed explicitly. -/
structure Harvest where
  BaseURL : String
  Format : String
  Set : String
  From : String
  Until : String
  MaxRequests : Int
  DisableSelectiveHarvesting : Bool
  CleanBeforeDecode : Bool
  IgnoreHTTPErrors : Bool
  MaxEmptyResponses : Int
  SuppressFormatParameter : Bool
  DailyInterval : Bool
  Identify : Identify
  Started : DateTime
  baseDir : String

/-- The fields of a `Request` the pagination driver fills in
(`harvest.go` lines 313-332). -/
structure Request where
  baseURL : String
  reqFormat : String
  verb : String
  set : String
  resumptionToken : String
  reqFrom : String
  reqUntil : String
  cleanBeforeDecode : Bool
  suppressFormatParameter : Bool
deriving DecidableEq, Repr

/-- The slice of a ListRecords response the driver inspects: the OAI
error code (empty when absent), the resumption token (empty when
absent), and the number of records. -/
structure OAIResp where
  errorCode : String
  token : String
  records : Nat
deriving DecidableEq, Repr

/-- Modelled from the spec: the response accessor `GetResumptionToken`
(the accessor lives outside `harvest.go`; the spec treats the token as
an opaque string carried by the response, empty when absent). -/
def OAIResp.GetResumptionToken (r : OAIResp) : String := r.token

/-- Modelled from the spec: `HasResumptionToken` — the response carries
a token exactly when that string is nonempty. -/
def OAIResp.HasResumptionToken (r : OAIResp) : Bool := r.token != ""

/-- One scripted outcome of `Do(&req)`: a response or a transport
failure. -/
inductive DoResult where
  | ok (r : OAIResp)
  | fail (e : GoErr)

/-- The `Interval` consumed by `runInterval`: `Begin` is a midnight
instant, `End` an end-of-day instant (the `now` library's `EndOfDay`,
truncated to the seconds this program can format). -/
structure Interval where
  Begin : DateTime
  End : DateTime
deriving DecidableEq, Repr

/-- `DateLayout` (`harvest.go` lines 107-115): map the advertised
granularity to a Go layout string, empty for anything else. -/
def Harvest.DateLayout (h : Harvest) : String :=
  match h.Identify.Granularity with
  | "YYYY-MM-DD" => "2006-01-02"
  | "YYYY-MM-DDThh:mm:ssZ" => "2006-01-02T15:04:05Z"
  | _ => ""

/-- Lift a Go `time.Parse` with the day layout into `Except`; a
successful day parse yields a midnight instant. -/
def parseDayE (layout s : String) : Except GoErr DateTime :=
  match parseDay10 s with
  | some d => .ok ⟨d, 0, 0, 0⟩
  | none => .error (.parseTime layout s)

/-- Lift a Go `time.Parse` with the RFC-3339-Z layout into `Except`. -/
def parseRFCE (layout s : String) : Except GoErr DateTime :=
  match parseRFC3339Z s with
  | some t => .ok t
  | none => .error (.parseTime layout s)

/-- `earliestDate` (`harvest.go` lines 409-426): dispatch on the
granularity, truncating the datestamp to ten characters where the
source slices `[:10]`. -/
def Harvest.earliestDate (h : Harvest) : Except GoErr DateTime :=
  match h.Identify.Granularity with
  | "YYYY-MM-DD" =>
    if h.Identify.EarliestDatestamp.length ≤ 10 then
      parseDayE "2006-01-02" h.Identify.EarliestDatestamp
    else
      parseDayE "2006-01-02" (strTake h.Identify.EarliestDatestamp 10)
  | "YYYY-MM-DDThh:mm:ssZ" =>
    if 10 ≤ h.Identify.EarliestDatestamp.length ∧ h.Identify.EarliestDatestamp.length < 20 then
      parseDayE "2006-01-02" (strTake h.Identify.EarliestDatestamp 10)
    else
      parseRFCE "2006-01-02T15:04:05Z" h.Identify.EarliestDatestamp
  | _ => .error .invalidEarliestDate

/-- Shape check for the ten characters of a `YYYY-MM-DD` date group, as
the `fnPattern` regex requires. -/
def datePatternOk (cs : List Char) : Bool :=
  match cs with
  | [a, b, c, d, e, f, g, h, i, j] =>
    a.isDigit && b.isDigit && c.isDigit && d.isDigit && e == '-' &&
    f.isDigit && g.isDigit && h == '-' && i.isDigit && j.isDigit
  | _ => false

/-- At least eight digits, the `[0-9]{8,}` part of `fnPattern`. -/
def digitsAtLeast8 (cs : List Char) : Bool :=
  cs.all Char.isDigit && decide (8 ≤ cs.length)

/-- The part of a filename after `YYYY-MM-DD-` must match
`[0-9]{8,}.xml(.gz)?$` (the dots in the source regex are unescaped, so
they match any character). -/
def tailMatches (r : List Char) : Bool :=
  match r.reverse with
  | 'z' :: 'g' :: _ :: 'l' :: 'm' :: 'x' :: _ :: ds => digitsAtLeast8 ds
  | 'l' :: 'm' :: 'x' :: _ :: ds => digitsAtLeast8 ds
  | _ => false

/-- Leftmost match of `fnPattern` (`harvest.go` line 29) against a
filename, returning the `Date` capture group: the regex is anchored at
the end, so a match is a suffix `DATE-DIGITS.xml[.gz]`, searched from
the leftmost starting position. -/
def findDateMatch : List Char → Option String
  | [] => none
  | c :: rest =>
    if datePatternOk ((c :: rest).take 10) && ((c :: rest).drop 10).take 1 == ['-']
        && tailMatches ((c :: rest).drop 11) then
      some (String.mk ((c :: rest).take 10))
    else findDateMatch rest

/-- The `ExtractorFunc` closure of `defaultInterval` (`harvest.go`
lines 226-232): the date group of `fnPattern` when the filename
matches, nothing otherwise. -/
def extractFileDate (name : String) : Option String := findDateMatch name.toList

/-- Modelled from the spec: `DirLaster.Last` (the `DirLaster` type lives
outside `harvest.go`).  Per §4.3 of the spec it scans the cached
filenames, extracts the date component of each match, and takes the
lexicographic maximum, falling back to the default value when no file
matches. -/
def dirLast (files : List String) (defaultValue : String) : String :=
  match files.filterMap extractFileDate with
  | [] => defaultValue
  | d :: ds => ds.foldl (fun a b => if a < b then b else a) d

/-- The earliest-date selection at the head of `defaultInterval`
(`harvest.go` lines 212-217): the caller-supplied `From` wins over the
Identify datestamp. -/
def Harvest.defaultStart (h : Harvest) : Except GoErr DateTime :=
  if h.From = "" then h.earliestDate else parseDayE "2006-01-02" h.From

/-- `defaultInterval` (`harvest.go` lines 208-256): plan the outer
harvesting window from the cached filenames.  `cacheFiles` stands for
the directory listing the `DirLaster` scans.  `end` is the `now`
library's `EndOfDay` of `Started` minus one day. -/
def Harvest.defaultInterval (h : Harvest) (cacheFiles : List String) :
    Except GoErr Interval :=
  match h.defaultStart with
  | .error e => .error e
  | .ok earliest =>
    match parseDay10 (dirLast cacheFiles (formatDate earliest.date)) with
    | none => .error (.parseTime "2006-01-02" (dirLast cacheFiles (formatDate earliest.date)))
    | some b0 =>
      if dirLast cacheFiles (formatDate earliest.date) = formatDate (prevDay h.Started.date) then
        .error .alreadySynced
      else
        .ok ⟨⟨if dirLast cacheFiles (formatDate earliest.date) ≠ formatDate earliest.date then
                 nextDay b0
               else b0, 0, 0, 0⟩,
             ⟨prevDay h.Started.date, 23, 59, 59⟩⟩

/-- How one pass of the `runInterval` loop ended.  Each constructor
corresponds to one exit of the Go `for` loop (distinguishable in the
program by its log line or returned error); `outOfScript` marks the
scripted environment running dry, which no theorem exercises. -/
inductive LoopExit where
  | maxRequests
  | earlyHTTP
  | noToken
  | maxEmpty
  | transportErr (e : GoErr)
  | oaiFatal (code : String)
  | outOfScript

/-- Observable outcome of the `runInterval` loop: the `(filedate, page
index)` pairs of the temp files written, the wire requests issued, the
unconsumed remainder of the response script, and the exit taken. -/
structure LoopResult where
  files : List (String × Nat)
  reqs : List Request
  rest : List DoResult
  exit : LoopExit

/-- The file-date stamped on every temp file of a batch (`harvest.go`
lines 325-332): the start-of-run day when selective harvesting is
disabled, the sub-interval's `End` day otherwise. -/
def mkFiledate (h : Harvest) (iv : Interval) : String :=
  if h.DisableSelectiveHarvesting then formatDate h.Started.date
  else formatDate iv.End.date

/-- The request built per page (`harvest.go` lines 313-332): `from` and
`until` are set, formatted in the advertised granularity's layout, only
when selective harvesting is enabled. -/
def mkRequest (h : Harvest) (iv : Interval) (token : String) : Request :=
  let base : Request :=
    { baseURL := h.BaseURL, reqFormat := h.Format, verb := "ListRecords",
      set := h.Set, resumptionToken := token, reqFrom := "", reqUntil := "",
      cleanBeforeDecode := h.CleanBeforeDecode,
      suppressFormatParameter := h.SuppressFormatParameter }
  if h.DisableSelectiveHarvesting then base
  else { base with reqFrom := formatTime h.DateLayout iv.Begin,
                   reqUntil := formatTime h.DateLayout iv.End }

/-- The `for` loop of `runInterval` (`harvest.go` lines 305-400) over a
script of transport outcomes.  Faithful points worth noting:
the request-limit check is `h.MaxRequests == i` with no positivity
guard; the `break` in the `noRecordsMatch` arm of the Go `switch`
leaves only the `switch`, so both `noRecordsMatch` sub-cases fall
through to the write step (reached below whenever the code is neither
`InternalException` nor fatal); the `InternalException` arm increments
`i` and retries; `i` advances and the empty-streak is updated only
after the token check, in that order. -/
def runLoop (h : Harvest) (iv : Interval) :
    List DoResult → Nat → Nat → String → List (String × Nat) → List Request → LoopResult
  | script, i, empty, token, files, reqs =>
    if h.MaxRequests = (i : Int) then ⟨files, reqs, script, .maxRequests⟩
    else
      match script with
      | [] => ⟨files, reqs, [], .outOfScript⟩
      | .fail e :: rest =>
        let reqs := reqs ++ [mkRequest h iv token]
        if h.IgnoreHTTPErrors then ⟨files, reqs, rest, .earlyHTTP⟩
        else ⟨files, reqs, rest, .transportErr e⟩
      | .ok resp :: rest =>
        let reqs := reqs ++ [mkRequest h iv token]
        if resp.errorCode = "InternalException" then
          runLoop h iv rest (i + 1) empty token files reqs
        else if resp.errorCode ≠ "" ∧ resp.errorCode ≠ "noRecordsMatch" then
          ⟨files, reqs, rest, .oaiFatal resp.errorCode⟩
        else
          let files := files ++ [(mkFiledate h iv, i)]
          let token := resp.GetResumptionToken
          if token = "" then ⟨files, reqs, rest, .noToken⟩
          else
            let i := i + 1
            let empty := if resp.records > 0 then 0 else empty + 1
            if (empty : Int) = h.MaxEmptyResponses then ⟨files, reqs, rest, .maxEmpty⟩
            else runLoop h iv rest i empty token files reqs

/-- Zero-padded eight-digit page index, Go's `%08d` for the indices this
program produces. -/
def pad8 (n : Nat) : String :=
  String.mk [digitChar (n / 10000000 % 10), digitChar (n / 1000000 % 10),
    digitChar (n / 100000 % 10), digitChar (n / 10000 % 10),
    digitChar (n / 1000 % 10), digitChar (n / 100 % 10),
    digitChar (n / 10 % 10), digitChar (n % 10)]

/-- The temp filename written for a page (`harvest.go` line 370):
`dir/DATE-INDEX.xml` plus the batch suffix. -/
def tempName (dir filedate : String) (i : Nat) (suffix : String) : String :=
  dir ++ "/" ++ filedate ++ "-" ++ pad8 i ++ ".xml" ++ suffix

/-- Does `pat` begin `cs`? (plain character-list comparison). -/
def listStarts : List Char → List Char → Bool
  | [], _ => true
  | _ :: _, [] => false
  | p :: ps, c :: cs => p == c && listStarts ps cs

/-- Remove every occurrence of `pat` from `cs`, scanning left to right:
Go `strings.Replace(s, pat, "", -1)`.  The fuel argument is the length
of `cs`, a structural termination measure for the Go loop. -/
def removeOccsGo (pat : List Char) : Nat → List Char → List Char
  | _, [] => []
  | 0, cs => cs
  | fuel + 1, c :: rest =>
    if pat ≠ [] && listStarts pat (c :: rest) then
      removeOccsGo pat fuel ((c :: rest).drop pat.length)
    else c :: removeOccsGo pat fuel rest

/-- Go `strings.Replace(s, pat, "", -1)`. -/
def removeOccs (pat cs : List Char) : List Char := removeOccsGo pat cs.length cs

/-- The promoted name of a temp file (`harvest.go` line 182):
strip every occurrence of the batch suffix, then append `.gz`. -/
def dstName (suffix name : String) : String :=
  String.mk (removeOccs suffix.toList name.toList) ++ ".gz"

/-- Does an `os.Remove` outcome leave the file on disk?  Success and
`ENOENT` mean absent; any other failure leaves it in place. -/
def presentAfterRemove : Option GoErr → Bool
  | none => false
  | some (.pathENOENT _) => false
  | some _ => true

/-- The rollback loop of `finalize` (`harvest.go` lines 185-193),
transliterated with its bug: the condition after `e := os.Remove(fn)`
tests `err` — the `MoveAndCompress` error, always non-nil here — and the
`ENOENT` tolerance also inspects `err`, not `e`.  So when `err` is a
non-`ENOENT` error the loop returns after attempting only the first
removal; when `err` happens to be `ENOENT`-shaped it sweeps every file.
Returns the promoted files still on disk and the surfaced error. -/
def rollbackGo (err : GoErr) (removeRes : String → Option GoErr) (dir : String) :
    List String → List String × Option GoErr
  | [] => ([], some err)
  | fn :: rest =>
    let e := removeRes fn
    match err with
    | .pathENOENT _ =>
      let (surv, r) := rollbackGo err removeRes dir rest
      ((if presentAfterRemove e then [fn] else []) ++ surv, r)
    | _ =>
      ((if presentAfterRemove e then [fn] else []) ++ rest,
       some (.multi [some err, e,
         some (.other ("inconsistent cache state; start over and purge " ++ dir))]))

/-- The promotion loop of `finalize` (`harvest.go` lines 181-198) over
the batch's temp files in glob order: `moveRes`/`removeRes` script the
filesystem outcomes of `MoveAndCompress` and `os.Remove`.  Returns the
promoted files present on disk afterwards and the returned error. -/
def finalizeLoop (suffix dir : String) (moveRes removeRes : String → Option GoErr) :
    List String → List String → List String × Option GoErr
  | [], renamed => (renamed, none)
  | f :: rest, renamed =>
    match moveRes f with
    | none => finalizeLoop suffix dir moveRes removeRes rest (renamed ++ [dstName suffix f])
    | some err => rollbackGo err removeRes dir renamed

/-- `finalize` (`harvest.go` lines 173-203): promote every temp file of
the batch, rolling back on failure. -/
def finalizeGo (suffix dir : String) (temps : List String)
    (moveRes removeRes : String → Option GoErr) : List String × Option GoErr :=
  finalizeLoop suffix dir moveRes removeRes temps []

/-- The deferred cleanup closure of `run` (`harvest.go` lines 260-269),
transliterated with its dead store: when both a primary error and a
cleanup error exist it first builds the `MultiError`, then the
unconditional `err = e` overwrites it. -/
def runDeferredErr (primary cleanup : Option GoErr) : Option GoErr :=
  match cleanup with
  | none => primary
  | some e =>
    let _err := match primary with
      | some p => some (GoErr.multi [some p, some e])
      | none => primary
    let err := some e
    err

/-- UTF-8 encoding of one character, byte values as `Nat`. -/
def utf8EncodeCharNat (c : Char) : List Nat :=
  let n := c.toNat
  if n < 128 then [n]
  else if n < 2048 then [192 + n / 64, 128 + n % 64]
  else if n < 65536 then [224 + n / 4096, 128 + n / 64 % 64, 128 + n % 64]
  else [240 + n / 262144, 128 + n / 4096 % 64, 128 + n / 64 % 64, 128 + n % 64]

/-- UTF-8 bytes of a string. -/
def utf8Bytes (s : String) : List Nat := s.toList.flatMap utf8EncodeCharNat

/-- The URL-safe base64 alphabet (`base64.RawURLEncoding`). -/
def b64Char (n : Nat) : Char :=
  if n < 26 then Char.ofNat (65 + n)
  else if n < 52 then Char.ofNat (97 + (n - 26))
  else if n < 62 then Char.ofNat (48 + (n - 52))
  else if n = 62 then '-' else '_'

/-- URL-safe base64 without padding over a byte list, three bytes per
chunk. -/
def b64urlChunks : List Nat → List Char
  | [] => []
  | [a] => [b64Char (a / 4), b64Char (a % 4 * 16)]
  | [a, b] => [b64Char (a / 4), b64Char (a % 4 * 16 + b / 16), b64Char (b % 16 * 4)]
  | a :: b :: c :: rest =>
    [b64Char (a / 4), b64Char (a % 4 * 16 + b / 16),
     b64Char (b % 16 * 4 + c / 64), b64Char (c % 64)] ++ b64urlChunks rest

/-- `Dir` (`harvest.go` lines 85-88): the per-endpoint cache directory,
`baseDir` joined with the unpadded URL-safe base64 of
`set + "#" + format + "#" + baseURL`. -/
def Harvest.Dir (h : Harvest) : String :=
  h.baseDir ++ "/" ++
    String.mk (b64urlChunks (utf8Bytes (h.Set ++ "#" ++ h.Format ++ "#" ++ h.BaseURL)))

/-- The directory state visible to `MkdirAll`: the directories that
exist, each with the permission bits it was created with. -/
structure FS where
  dirs : List (String × Nat)
deriving DecidableEq, Repr

/-- Does a directory exist (`os.Stat` without `IsNotExist`)? -/
def FS.mem (fs : FS) (p : String) : Bool := fs.dirs.any (fun e => e.1 == p)

/-- Split a character list on `/`. -/
def splitSlashAux (acc : List Char) : List Char → List (List Char)
  | [] => [acc.reverse]
  | '/' :: rest => acc.reverse :: splitSlashAux [] rest
  | c :: rest => splitSlashAux (c :: acc) rest

/-- Join path components back into the progressively longer paths
`os.MkdirAll` visits, skipping empty components. -/
def progressiveRel : String → List (List Char) → List String
  | _, [] => []
  | cur, p :: rest =>
    if p = [] then progressiveRel cur rest
    else
      let q := if cur = "" then String.mk p else cur ++ "/" ++ String.mk p
      q :: progressiveRel q rest

/-- The chain of directories `os.MkdirAll(p, mode)` ensures, shortest
first (for an absolute path the root itself always exists). -/
def ancestorPaths (p : String) : List String :=
  match p.toList with
  | '/' :: rest => (progressiveRel "" (splitSlashAux [] rest)).map (fun s => "/" ++ s)
  | cs => progressiveRel "" (splitSlashAux [] cs)

/-- Create one directory if missing, recording the given mode
(`os.Mkdir` inside `MkdirAll`). -/
def mkdirStep (mode : Nat) (fs : FS) (q : String) : FS :=
  if fs.mem q then fs else ⟨fs.dirs ++ [(q, mode)]⟩

/-- `os.MkdirAll(p, mode)`: create every missing component of `p` with
the given permission bits. -/
def osMkdirAll (fs : FS) (p : String) (mode : Nat) : FS :=
  (ancestorPaths p).foldl (mkdirStep mode) fs

/-- `MkdirAll` (`harvest.go` lines 91-98): stat the harvest directory
and create it — with mode `0755` — only when missing. -/
def Harvest.MkdirAll (h : Harvest) (fs : FS) : FS × Option GoErr :=
  if fs.mem h.Dir then (fs, none)
  else (osMkdirAll fs h.Dir 0o755, none)

theorem toList_mk (l : List Char) : (String.mk l).toList = l := rfl

theorem digit_digitChar : ∀ n : Nat, n < 10 → digit? (digitChar n) = some n := by decide

theorem digit_lt {c : Char} {n : Nat} (h : digit? c = some n) : n < 10 := by
  unfold digit? at h
  split at h
  · rename_i hc
    cases h
    omega
  · cases h

theorem daysInMonth_le (y m : Nat) : daysInMonth y m ≤ 31 := by
  unfold daysInMonth
  split <;> first
    | omega
    | split <;> omega

theorem parseDay10_valid {s : String} {d : Date} (h : parseDay10 s = some d) :
    d.Valid ∧ d.y < 10000 := by
  unfold parseDay10 at h
  split at h
  · split at h
    · split at h
      · rename_i e1 e2 e3 e4 e5 e6 e7 e8
        split at h
        · rename_i hcond
          cases h
          have := digit_lt e1
          have := digit_lt e2
          have := digit_lt e3
          have := digit_lt e4
          refine ⟨hcond, ?_⟩
          dsimp only
          omega
        · cases h
      · cases h
    · cases h
  · cases h

theorem parse_formatDate (dt : Date) (hv : dt.Valid) (hy : dt.y < 10000) :
    parseDay10 (formatDate dt) = some dt := by
  obtain ⟨y, m, d⟩ := dt
  obtain ⟨h1, h2, h3, h4⟩ := hv
  dsimp only at h1 h2 h3 h4 hy
  have hd31 : d ≤ 31 := le_trans h4 (daysInMonth_le y m)
  have e1 := digit_digitChar (y / 1000 % 10) (Nat.mod_lt _ (by norm_num))
  have e2 := digit_digitChar (y / 100 % 10) (Nat.mod_lt _ (by norm_num))
  have e3 := digit_digitChar (y / 10 % 10) (Nat.mod_lt _ (by norm_num))
  have e4 := digit_digitChar (y % 10) (Nat.mod_lt _ (by norm_num))
  have e5 := digit_digitChar (m / 10 % 10) (Nat.mod_lt _ (by norm_num))
  have e6 := digit_digitChar (m % 10) (Nat.mod_lt _ (by norm_num))
  have e7 := digit_digitChar (d / 10 % 10) (Nat.mod_lt _ (by norm_num))
  have e8 := digit_digitChar (d % 10) (Nat.mod_lt _ (by norm_num))
  have a1 : y / 10 / 10 = y / 100 := by rw [Nat.div_div_eq_div_mul]
  have a2 : y / 100 / 10 = y / 1000 := by rw [Nat.div_div_eq_div_mul]
  have hY : ((y / 1000 % 10 * 10 + y / 100 % 10) * 10 + y / 10 % 10) * 10 + y % 10 = y := by
    omega
  have hM : m / 10 % 10 * 10 + m % 10 = m := by omega
  have hD : d / 10 % 10 * 10 + d % 10 = d := by omega
  simp only [formatDate, parseDay10, toList_mk, e1, e2, e3, e4, e5, e6, e7, e8, hY, hM, hD]
  simp [h1, h2, h3, h4]

theorem parseDayE_valid {layout s : String} {t : DateTime}
    (h : parseDayE layout s = .ok t) : t.date.Valid ∧ t.date.y < 10000 := by
  unfold parseDayE at h
  split at h
  · cases h
    rename_i hp
    exact parseDay10_valid hp
  · cases h

theorem parseRFC3339Z_valid {s : String} {t : DateTime}
    (h : parseRFC3339Z s = some t) : t.date.Valid ∧ t.date.y < 10000 := by
  unfold parseRFC3339Z at h
  split at h
  · cases h
  · rename_i d hp
    split at h
    · split at h
      · split at h
        · cases h
          exact parseDay10_valid hp
        · cases h
      · cases h
    · cases h

theorem parseRFCE_valid {layout s : String} {t : DateTime}
    (h : parseRFCE layout s = .ok t) : t.date.Valid ∧ t.date.y < 10000 := by
  unfold parseRFCE at h
  split at h
  · cases h
    rename_i hp
    exact parseRFC3339Z_valid hp
  · cases h

theorem defaultStart_valid {h : Harvest} {t : DateTime}
    (hd : h.defaultStart = .ok t) : t.date.Valid ∧ t.date.y < 10000 := by
  unfold Harvest.defaultStart at hd
  split at hd
  · unfold Harvest.earliestDate at hd
    split at hd
    · split at hd
      · exact parseDayE_valid hd
      · exact parseDayE_valid hd
    · split at hd
      · exact parseDayE_valid hd
      · exact parseRFCE_valid hd
    · cases hd
  · exact parseDayE_valid hd

/-- A concrete harvest configuration used by witnesses and
counterexamples. -/
def cfg0 : Harvest :=
  { BaseURL := "http://example.org/oai"
    Format := "oai_dc"
    Set := ""
    From := ""
    Until := ""
    MaxRequests := 10
    DisableSelectiveHarvesting := false
    CleanBeforeDecode := false
    IgnoreHTTPErrors := false
    MaxEmptyResponses := 3
    SuppressFormatParameter := false
    DailyInterval := false
    Identify := ⟨"YYYY-MM-DD", "2020-01-15"⟩
    Started := ⟨⟨2020, 3, 10⟩, 9, 30, 0⟩
    baseDir := "/home/u/.metha" }

/-- A concrete February 2020 sub-interval used by witnesses and
counterexamples. -/
def iv0 : Interval := ⟨⟨⟨2020, 2, 1⟩, 0, 0, 0⟩, ⟨⟨2020, 2, 29⟩, 23, 59, 59⟩⟩

/-- C1: the claim says a promotion failure removes every already
promoted file and attaches the purge directive only when a removal
itself fails.  The code tests the wrong variable (`err`, the promotion
error, instead of `e`, the removal error): with three temp files whose
third promotion fails while every removal would succeed, the rollback
removes only the first promoted file, leaves `b.xml.gz` in place, and
surfaces the purge directive although no removal failed. -/
theorem claim_C1 :
    finalizeGo "-tmp-7" "DIR" ["a.xml-tmp-7", "b.xml-tmp-7", "c.xml-tmp-7"]
      (fun f => if f = "c.xml-tmp-7" then some (.other "disk full") else none)
      (fun _ => none) =
    (["b.xml.gz"],
     some (.multi [some (.other "disk full"), none,
       some (.other "inconsistent cache state; start over and purge DIR")])) := rfl

/-- C4: the claim says that when the run fails and the deferred cleanup
also fails the returned error aggregates both.  The deferred closure
builds the `MultiError` but then unconditionally overwrites it with the
cleanup error, so the primary error is lost; when only the cleanup
fails, the cleanup error alone is indeed returned. -/
theorem claim_C4 :
    runDeferredErr (some (.other "primary failure")) (some (.other "cleanup failure")) =
      some (.other "cleanup failure") ∧
    runDeferredErr none (some (.other "cleanup failure")) =
      some (.other "cleanup failure") ∧
    runDeferredErr (some (.other "primary failure")) none =
      some (.other "primary failure") :=
  ⟨rfl, rfl, rfl⟩

/-- C2 (amended): a `noRecordsMatch` response with no resumption token
does not stop the sub-interval before the write step.  The Go `break`
leaves only the `switch`, so the loop writes the response as a temp
file and then stops at the empty-token check; the batch gains exactly
one more temp file for that response and the rest of the conversation
is never fetched. -/
theorem claim_C2 (h : Harvest) (iv : Interval) (resp : OAIResp) (rest : List DoResult)
    (i empty : Nat) (token : String) (files : List (String × Nat)) (reqs : List Request)
    (hcode : resp.errorCode = "noRecordsMatch") (htok : resp.token = "")
    (hmax : h.MaxRequests ≠ (i : Int)) :
    runLoop h iv (.ok resp :: rest) i empty token files reqs =
      ⟨files ++ [(mkFiledate h iv, i)], reqs ++ [mkRequest h iv token], rest, .noToken⟩ := by
  unfold runLoop
  rw [if_neg hmax]
  dsimp only
  rw [hcode]
  rw [if_neg (by decide)]
  rw [if_neg (by decide)]
  dsimp only [OAIResp.GetResumptionToken]
  rw [htok]
  rw [if_pos rfl]

/-- C2, counterexample to the claim as stated: `noRecordsMatch` with no
token on the very first page yields a batch with one temp file, not
zero. -/
theorem claim_C2_counterexample :
    (runLoop cfg0 iv0 [.ok ⟨"noRecordsMatch", "", 0⟩] 0 0 "" [] []).files =
      [("2020-02-29", 0)] := rfl

/-- C2, witness: the amended theorem applied to a concrete first-page
`noRecordsMatch` conversation. -/
theorem claim_C2_witness :
    runLoop cfg0 iv0 [.ok ⟨"noRecordsMatch", "", 0⟩] 0 0 "" [] [] =
      ⟨[(mkFiledate cfg0 iv0, 0)], [mkRequest cfg0 iv0 ""], [], .noToken⟩ :=
  claim_C2 cfg0 iv0 ⟨"noRecordsMatch", "", 0⟩ [] 0 0 "" [] [] rfl rfl (by decide)

/-- Whenever `MaxRequests` is negative the request-limit exit can never
be taken: the counter `i` is non-negative and only grows. -/
theorem runLoop_exit_ne_max (h : Harvest) (iv : Interval) (hneg : h.MaxRequests < 0) :
    ∀ (script : List DoResult) (i empty : Nat) (token : String)
      (files : List (String × Nat)) (reqs : List Request),
      (runLoop h iv script i empty token files reqs).exit ≠ .maxRequests := by
  intro script
  induction script with
  | nil =>
    intro i empty token files reqs
    unfold runLoop
    rw [if_neg (by omega)]
    simp
  | cons head rest ih =>
    intro i empty token files reqs
    unfold runLoop
    rw [if_neg (by omega)]
    cases head with
    | fail e =>
      dsimp only
      split
      · simp
      · simp
    | ok resp =>
      dsimp only
      split
      · exact ih (i + 1) empty token files _
      · split
        · simp
        · split
          · simp
          · split
            · split
              · simp
              · exact ih _ _ _ _ _
            · split
              · simp
              · exact ih _ _ _ _ _

/-- C3 (amended): the per-page loop stops at the request limit exactly
when the page counter reaches `MaxRequests`, with no positivity guard:
the check `MaxRequests == i` fires immediately at `i = 0` when
`MaxRequests` is zero (an empty batch, nothing fetched), and only a
negative `MaxRequests` makes the limit unreachable. -/
theorem claim_C3 (h : Harvest) (iv : Interval) (script : List DoResult)
    (i empty : Nat) (token : String) (files : List (String × Nat)) (reqs : List Request) :
    (h.MaxRequests = (i : Int) →
      runLoop h iv script i empty token files reqs = ⟨files, reqs, script, .maxRequests⟩) ∧
    (h.MaxRequests < 0 →
      (runLoop h iv script i empty token files reqs).exit ≠ .maxRequests) := by
  constructor
  · intro hi
    unfold runLoop
    rw [if_pos hi]
  · intro hneg
    exact runLoop_exit_ne_max h iv hneg script i empty token files reqs

/-- C3, counterexample to the claim as stated: with `MaxRequests = 0`
(its zero value) the limit fires before the first request — the scripted
normal page is left unfetched and no temp file is written — whereas the
claim says the limit never triggers when `MaxRequests` is zero. -/
theorem claim_C3_counterexample :
    (runLoop { cfg0 with MaxRequests := 0 } iv0 [.ok ⟨"", "", 7⟩] 0 0 "" [] []).files = [] ∧
    (runLoop { cfg0 with MaxRequests := 0 } iv0 [.ok ⟨"", "", 7⟩] 0 0 "" [] []).exit =
      .maxRequests ∧
    (runLoop { cfg0 with MaxRequests := 0 } iv0 [.ok ⟨"", "", 7⟩] 0 0 "" [] []).rest.length =
      1 :=
  ⟨rfl, rfl, rfl⟩

/-- C3, witness: the amended theorem at a concrete limit hit
(`MaxRequests = 4`, `i = 4`) and at a concrete negative limit. -/
theorem claim_C3_witness :
    runLoop { cfg0 with MaxRequests := 4 } iv0 [] 4 0 "t" [("2020-02-29", 3)] [] =
      ⟨[("2020-02-29", 3)], [], [], .maxRequests⟩ ∧
    ({ cfg0 with MaxRequests := -1 } : Harvest).MaxRequests < 0 ∧
    (runLoop { cfg0 with MaxRequests := -1 } iv0 [.ok ⟨"", "", 7⟩] 0 0 "" [] []).exit ≠
      .maxRequests := by
  refine ⟨(claim_C3 _ iv0 [] 4 0 "t" [("2020-02-29", 3)] []).1 (by decide), by decide,
    (claim_C3 { cfg0 with MaxRequests := -1 } iv0 [.ok ⟨"", "", 7⟩] 0 0 "" [] []).2 (by decide)⟩

/-- C8: after a token-carrying page that passed the error handling, the
empty-streak resets to zero when the page contained at least one record
and increments otherwise, and the loop stops with the max-empty exit
exactly when the updated streak equals `MaxEmptyResponses` (first
conjunct, the one-step equation of the loop).  Concretely, with
`MaxEmptyResponses = 3` three consecutive token-carrying empty pages
write exactly the temp files with page indices 0, 1, 2, stop via the
max-empty exit, and a finalize pass in which every `MoveAndCompress`
succeeds promotes all three (remaining conjuncts). -/
theorem claim_C8 (h : Harvest) (iv : Interval) (resp : OAIResp) (rest : List DoResult)
    (i empty : Nat) (token : String) (files : List (String × Nat)) (reqs : List Request)
    (hmax : h.MaxRequests ≠ (i : Int)) (hcode : resp.errorCode = "")
    (htok : resp.token ≠ "") :
    (runLoop h iv (.ok resp :: rest) i empty token files reqs =
      if ((if resp.records > 0 then 0 else empty + 1 : Nat) : Int) = h.MaxEmptyResponses then
        ⟨files ++ [(mkFiledate h iv, i)], reqs ++ [mkRequest h iv token], rest, .maxEmpty⟩
      else
        runLoop h iv rest (i + 1) (if resp.records > 0 then 0 else empty + 1)
          resp.token (files ++ [(mkFiledate h iv, i)]) (reqs ++ [mkRequest h iv token])) ∧
    ((runLoop cfg0 iv0
        [.ok ⟨"", "t1", 0⟩, .ok ⟨"", "t2", 0⟩, .ok ⟨"", "t3", 0⟩] 0 0 "" [] []).files =
      [("2020-02-29", 0), ("2020-02-29", 1), ("2020-02-29", 2)] ∧
     (runLoop cfg0 iv0
        [.ok ⟨"", "t1", 0⟩, .ok ⟨"", "t2", 0⟩, .ok ⟨"", "t3", 0⟩] 0 0 "" [] []).exit =
      .maxEmpty ∧
     finalizeGo "-tmp-42" "d"
        [tempName "d" "2020-02-29" 0 "-tmp-42", tempName "d" "2020-02-29" 1 "-tmp-42",
         tempName "d" "2020-02-29" 2 "-tmp-42"] (fun _ => none) (fun _ => none) =
      (["d/2020-02-29-00000000.xml.gz", "d/2020-02-29-00000001.xml.gz",
        "d/2020-02-29-00000002.xml.gz"], none)) := by
  constructor
  · conv_lhs => unfold runLoop
    rw [if_neg hmax]
    dsimp only
    rw [hcode]
    rw [if_neg (by decide)]
    rw [if_neg (by decide)]
    dsimp only [OAIResp.GetResumptionToken]
    rw [if_neg htok]
  · exact ⟨rfl, rfl, rfl⟩

/-- C8, witness: the one-step equation applied to a concrete
token-carrying empty page with a prior streak of one. -/
theorem claim_C8_witness :
    runLoop cfg0 iv0 [.ok ⟨"", "t9", 0⟩] 0 1 "" [] [] =
      (if ((if (0 : Nat) > 0 then 0 else 1 + 1 : Nat) : Int) = cfg0.MaxEmptyResponses then
        ⟨[(mkFiledate cfg0 iv0, 0)], [mkRequest cfg0 iv0 ""], [], .maxEmpty⟩
      else
        runLoop cfg0 iv0 [] 1 (if (0 : Nat) > 0 then 0 else 1 + 1) "t9"
          [(mkFiledate cfg0 iv0, 0)] [mkRequest cfg0 iv0 ""]) :=
  (claim_C8 cfg0 iv0 ⟨"", "t9", 0⟩ [] 0 1 "" [] [] (by decide) rfl (by decide)).1

/-- C7: `earliestDate` dispatch — for day granularity an input longer
than ten characters is truncated to its first ten characters and parsed
as a day; for the fine granularity an input of length in `[10, 20)` is
truncated to ten characters and parsed as a day while an input of
length at least twenty is parsed with the full RFC-3339-Z layout; any
other granularity yields `ErrInvalidEarliestDate`. -/
theorem claim_C7 (h : Harvest) :
    (h.Identify.Granularity = "YYYY-MM-DD" → 10 < h.Identify.EarliestDatestamp.length →
      h.earliestDate = parseDayE "2006-01-02" (strTake h.Identify.EarliestDatestamp 10)) ∧
    (h.Identify.Granularity = "YYYY-MM-DDThh:mm:ssZ" →
      10 ≤ h.Identify.EarliestDatestamp.length → h.Identify.EarliestDatestamp.length < 20 →
      h.earliestDate = parseDayE "2006-01-02" (strTake h.Identify.EarliestDatestamp 10)) ∧
    (h.Identify.Granularity = "YYYY-MM-DDThh:mm:ssZ" →
      20 ≤ h.Identify.EarliestDatestamp.length →
      h.earliestDate = parseRFCE "2006-01-02T15:04:05Z" h.Identify.EarliestDatestamp) ∧
    (h.Identify.Granularity ≠ "YYYY-MM-DD" → h.Identify.Granularity ≠ "YYYY-MM-DDThh:mm:ssZ" →
      h.earliestDate = .error .invalidEarliestDate) := by
  refine ⟨?_, ?_, ?_, ?_⟩
  · intro hg hlen
    unfold Harvest.earliestDate
    split
    · rw [if_neg (by omega)]
    · rename_i heq
      rw [hg] at heq
      exact absurd heq (by decide)
    · rename_i hne1 hne2
      exact absurd hg hne1
  · intro hg h10 h20
    unfold Harvest.earliestDate
    split
    · rename_i heq
      rw [hg] at heq
      exact absurd heq (by decide)
    · rw [if_pos ⟨h10, h20⟩]
    · rename_i hne1 hne2
      exact absurd hg hne2
  · intro hg h20
    unfold Harvest.earliestDate
    split
    · rename_i heq
      rw [hg] at heq
      exact absurd heq (by decide)
    · rw [if_neg (by omega)]
    · rename_i hne1 hne2
      exact absurd hg hne2
  · intro hg1 hg2
    unfold Harvest.earliestDate
    split
    · rename_i heq
      exact absurd heq hg1
    · rename_i heq
      exact absurd heq hg2
    · rfl
/-- C7, witness: the dispatch theorem applied to one concrete input per
branch. -/
theorem claim_C7_witness :
    Harvest.earliestDate { cfg0 with Identify := ⟨"YYYY-MM-DD", "2020-01-15T00:00:00Z"⟩ } =
      parseDayE "2006-01-02" (strTake "2020-01-15T00:00:00Z" 10) ∧
    Harvest.earliestDate { cfg0 with Identify := ⟨"YYYY-MM-DDThh:mm:ssZ", "2011-06-15T23:59"⟩ } =
      parseDayE "2006-01-02" (strTake "2011-06-15T23:59" 10) ∧
    Harvest.earliestDate { cfg0 with Identify := ⟨"YYYY-MM-DDThh:mm:ssZ", "2011-06-15T23:59:59Z"⟩ } =
      parseRFCE "2006-01-02T15:04:05Z" "2011-06-15T23:59:59Z" ∧
    Harvest.earliestDate { cfg0 with Identify := ⟨"weekly", "2020-01-15"⟩ } =
      .error .invalidEarliestDate := by
  refine ⟨(claim_C7 _).1 rfl (by decide), (claim_C7 _).2.1 rfl (by decide) (by decide),
    (claim_C7 _).2.2.1 rfl (by decide), (claim_C7 _).2.2.2 (by decide) (by decide)⟩
/-- C5: on a successful plan the planner's begin day equals the
lexicographically maximal cached file date plus one day exactly when
that maximum differs from the default start (the formatted caller
`From` or parsed earliest datestamp); when the cache is empty or the
maximum equals the default start — `DirLaster` then reports the default
value — begin equals the default start itself. -/
theorem claim_C5 (h : Harvest) (files : List String) (iv : Interval) (ed : DateTime)
    (hed : h.defaultStart = .ok ed)
    (hok : h.defaultInterval files = .ok iv) :
    ∃ b0, parseDay10 (dirLast files (formatDate ed.date)) = some b0 ∧
      (dirLast files (formatDate ed.date) ≠ formatDate ed.date →
        iv.Begin.date = nextDay b0) ∧
      (dirLast files (formatDate ed.date) = formatDate ed.date →
        iv.Begin.date = ed.date) := by
  unfold Harvest.defaultInterval at hok
  rw [hed] at hok
  dsimp only at hok
  cases hp : parseDay10 (dirLast files (formatDate ed.date)) with
  | none =>
    rw [hp] at hok
    cases hok
  | some b0 =>
    rw [hp] at hok
    dsimp only at hok
    split at hok
    · cases hok
    · cases hok
      refine ⟨b0, rfl, ?_, ?_⟩
      · intro hne
        dsimp only
        rw [if_pos hne]
      · intro heq
        dsimp only
        rw [if_neg (fun hn => hn heq)]
        have hv := defaultStart_valid hed
        rw [heq, parse_formatDate ed.date hv.1 hv.2] at hp
        exact (Option.some.injEq _ _ ▸ hp).symm
/-- C6: the planner returns `ErrAlreadySynced` exactly when the last
known cached date equals the formatted end day, where the end is the end
of day of `Started` minus one day; a second run with the same `Started`
over a cache whose newest file carries that end date therefore yields
the already-synced signal. -/
theorem claim_C6 (h : Harvest) (files : List String) (ed : DateTime)
    (hed : h.defaultStart = .ok ed)
    (hv : (prevDay h.Started.date).Valid) (hy : (prevDay h.Started.date).y < 10000) :
    (h.defaultInterval files = .error .alreadySynced ↔
      dirLast files (formatDate ed.date) = formatDate (prevDay h.Started.date)) := by
  unfold Harvest.defaultInterval
  rw [hed]
  dsimp only
  cases hp : parseDay10 (dirLast files (formatDate ed.date)) with
  | none =>
    dsimp only
    constructor
    · intro hcon
      injection hcon with h2
      exact GoErr.noConfusion h2
    · intro heq
      rw [heq, parse_formatDate _ hv hy] at hp
      exact Option.noConfusion hp
  | some b0 =>
    dsimp only
    split
    · rename_i heq
      exact iff_of_true rfl heq
    · rename_i hne
      constructor
      · intro hcon
        exact Except.noConfusion hcon
      · intro heq
        exact absurd heq hne
/-- C6, witness: the equivalence at a cache whose newest file is dated
`started - 1 day`, which concretely yields the already-synced signal. -/
theorem claim_C6_witness :
    ((Harvest.defaultInterval cfg0 ["2020-03-09-00000000.xml.gz"] =
        .error .alreadySynced) ↔
      dirLast ["2020-03-09-00000000.xml.gz"] (formatDate ⟨2020, 1, 15⟩) =
        formatDate (prevDay cfg0.Started.date)) ∧
    Harvest.defaultInterval cfg0 ["2020-03-09-00000000.xml.gz"] = .error .alreadySynced :=
  ⟨claim_C6 cfg0 ["2020-03-09-00000000.xml.gz"] ⟨⟨2020, 1, 15⟩, 0, 0, 0⟩ rfl
      (by decide) (by decide), rfl⟩
/-- C5, witness: the planner applied to a cache holding a January file,
with earliest datestamp 2020-01-15: begin is 2020-02-01. -/
theorem claim_C5_witness :
    ∃ b0, parseDay10 (dirLast ["2020-01-31-00000000.xml.gz"] (formatDate ⟨2020, 1, 15⟩)) =
        some b0 ∧
      (dirLast ["2020-01-31-00000000.xml.gz"] (formatDate ⟨2020, 1, 15⟩) ≠
          formatDate ⟨2020, 1, 15⟩ →
        (⟨⟨⟨2020, 2, 1⟩, 0, 0, 0⟩, ⟨⟨2020, 3, 9⟩, 23, 59, 59⟩⟩ : Interval).Begin.date =
          nextDay b0) ∧
      (dirLast ["2020-01-31-00000000.xml.gz"] (formatDate ⟨2020, 1, 15⟩) =
          formatDate ⟨2020, 1, 15⟩ →
        (⟨⟨⟨2020, 2, 1⟩, 0, 0, 0⟩, ⟨⟨2020, 3, 9⟩, 23, 59, 59⟩⟩ : Interval).Begin.date =
          ⟨2020, 1, 15⟩) :=
  claim_C5 cfg0 ["2020-01-31-00000000.xml.gz"]
    ⟨⟨⟨2020, 2, 1⟩, 0, 0, 0⟩, ⟨⟨2020, 3, 9⟩, 23, 59, 59⟩⟩ ⟨⟨2020, 1, 15⟩, 0, 0, 0⟩ rfl rfl
/-- With an empty `DateLayout` and selective harvesting enabled, the
request's `from` and `until` are the empty string (Go formats with the
empty layout). -/
theorem mkRequest_empty_layout (h : Harvest) (iv : Interval) (token : String)
    (hl : h.DateLayout = "") (hds : h.DisableSelectiveHarvesting = false) :
    (mkRequest h iv token).reqFrom = "" ∧ (mkRequest h iv token).reqUntil = "" := by
  unfold mkRequest
  rw [hds]
  dsimp only
  rw [hl]
  exact ⟨rfl, rfl⟩
/-- Every request the loop appends under an empty `DateLayout` carries
empty `from` and `until`. -/
theorem runLoop_reqs_empty_layout (h : Harvest) (iv : Interval)
    (hl : h.DateLayout = "") (hds : h.DisableSelectiveHarvesting = false) :
    ∀ (script : List DoResult) (i empty : Nat) (token : String)
      (files : List (String × Nat)) (reqs : List Request) (r : Request),
      r ∈ (runLoop h iv script i empty token files reqs).reqs →
      r ∈ reqs ∨ (r.reqFrom = "" ∧ r.reqUntil = "") := by
  intro script
  induction script with
  | nil =>
    intro i empty token files reqs r hr
    unfold runLoop at hr
    split at hr
    · exact Or.inl hr
    · exact Or.inl hr
  | cons head rest ih =>
    intro i empty token files reqs r hr
    unfold runLoop at hr
    split at hr
    · exact Or.inl hr
    · cases head with
      | fail e =>
        dsimp only at hr
        split at hr
        · rcases List.mem_append.mp hr with hm | hm
          · exact Or.inl hm
          · exact Or.inr (List.mem_singleton.mp hm ▸ mkRequest_empty_layout h iv token hl hds)
        · rcases List.mem_append.mp hr with hm | hm
          · exact Or.inl hm
          · exact Or.inr (List.mem_singleton.mp hm ▸ mkRequest_empty_layout h iv token hl hds)
      | ok resp =>
        dsimp only at hr
        split at hr
        · rcases ih _ _ _ _ _ r hr with hm | hm
          · rcases List.mem_append.mp hm with hm2 | hm2
            · exact Or.inl hm2
            · exact Or.inr (List.mem_singleton.mp hm2 ▸ mkRequest_empty_layout h iv token hl hds)
          · exact Or.inr hm
        · split at hr
          · rcases List.mem_append.mp hr with hm | hm
            · exact Or.inl hm
            · exact Or.inr (List.mem_singleton.mp hm ▸ mkRequest_empty_layout h iv token hl hds)
          · split at hr
            · rcases List.mem_append.mp hr with hm | hm
              · exact Or.inl hm
              · exact Or.inr (List.mem_singleton.mp hm ▸ mkRequest_empty_layout h iv token hl hds)
            · split at hr
              · split at hr
                · rcases List.mem_append.mp hr with hm | hm
                  · exact Or.inl hm
                  · exact Or.inr (List.mem_singleton.mp hm ▸ mkRequest_empty_layout h iv token hl hds)
                · rcases ih _ _ _ _ _ r hr with hm | hm
                  · rcases List.mem_append.mp hm with hm2 | hm2
                    · exact Or.inl hm2
                    · exact Or.inr (List.mem_singleton.mp hm2 ▸ mkRequest_empty_layout h iv token hl hds)
                  · exact Or.inr hm
              · split at hr
                · rcases List.mem_append.mp hr with hm | hm
                  · exact Or.inl hm
                  · exact Or.inr (List.mem_singleton.mp hm ▸ mkRequest_empty_layout h iv token hl hds)
                · rcases ih _ _ _ _ _ r hr with hm | hm
                  · rcases List.mem_append.mp hm with hm2 | hm2
                    · exact Or.inl hm2
                    · exact Or.inr (List.mem_singleton.mp hm2 ▸ mkRequest_empty_layout h iv token hl hds)
                  · exact Or.inr hm
/-- C10: with a caller-supplied `From`, an unsupported Identify
granularity is never rejected — the planner takes its start from `From`
and not from `earliestDate` (the only producer of
`ErrInvalidEarliestDate`, which the plan then never returns),
`DateLayout` yields the empty string, and every selective ListRecords
request is issued with `from` and `until` equal to the empty string
instead of failing. -/
theorem claim_C10 (h : Harvest) (files : List String) (iv : Interval)
    (script : List DoResult) (i empty : Nat) (token : String) (fs : List (String × Nat))
    (hg1 : h.Identify.Granularity ≠ "YYYY-MM-DD")
    (hg2 : h.Identify.Granularity ≠ "YYYY-MM-DDThh:mm:ssZ") :
    h.DateLayout = "" ∧
    (h.From ≠ "" → h.defaultStart = parseDayE "2006-01-02" h.From) ∧
    (h.From ≠ "" → h.defaultInterval files ≠ .error .invalidEarliestDate) ∧
    (h.DisableSelectiveHarvesting = false →
      ∀ r ∈ (runLoop h iv script i empty token fs []).reqs,
        r.reqFrom = "" ∧ r.reqUntil = "") := by
  have hlay : h.DateLayout = "" := by
    unfold Harvest.DateLayout
    split
    · rename_i heq
      exact absurd heq hg1
    · rename_i heq
      exact absurd heq hg2
    · rfl
  have hds : h.From ≠ "" → h.defaultStart = parseDayE "2006-01-02" h.From := by
    intro hf
    unfold Harvest.defaultStart
    rw [if_neg hf]
  refine ⟨hlay, hds, ?_, ?_⟩
  · intro hf
    unfold Harvest.defaultInterval
    rw [hds hf]
    unfold parseDayE
    cases hq : parseDay10 h.From with
    | none =>
      dsimp only
      intro hcon
      injection hcon with h2
      exact GoErr.noConfusion h2
    | some b =>
      dsimp only
      cases hp : parseDay10 (dirLast files (formatDate (⟨b, 0, 0, 0⟩ : DateTime).date)) with
      | none =>
        dsimp only
        intro hcon
        injection hcon with h2
        exact GoErr.noConfusion h2
      | some b0 =>
        dsimp only
        split
        · intro hcon
          injection hcon with h2
          exact GoErr.noConfusion h2
        · intro hcon
          exact Except.noConfusion hcon
  · intro hdsel r hr
    rcases runLoop_reqs_empty_layout h iv hlay hdsel script i empty token fs [] r hr with hm | hm
    · exact absurd hm (List.not_mem_nil r)
    · exact hm
/-- C10, witness: a granularity of `week` with `From = 2020-01-01`
plans without the invalid-earliest-date error and sends empty `from`
and `until` on a concrete conversation. -/
theorem claim_C10_witness :
    Harvest.DateLayout { cfg0 with Identify := ⟨"week", "x"⟩, From := "2020-01-01" } = "" ∧
    Harvest.defaultInterval { cfg0 with Identify := ⟨"week", "x"⟩, From := "2020-01-01" } [] ≠
      .error .invalidEarliestDate ∧
    (∀ r ∈ (runLoop { cfg0 with Identify := ⟨"week", "x"⟩, From := "2020-01-01" } iv0
        [.ok ⟨"", "", 2⟩] 0 0 "" [] []).reqs, r.reqFrom = "" ∧ r.reqUntil = "") := by
  have hc := claim_C10 { cfg0 with Identify := ⟨"week", "x"⟩, From := "2020-01-01" } [] iv0
    [.ok ⟨"", "", 2⟩] 0 0 "" [] (by decide) (by decide)
  exact ⟨hc.1, hc.2.2.1 (by decide), hc.2.2.2 rfl⟩
/-- `mkdirStep` preserves existing directories. -/
theorem mem_mkdirStep {fs : FS} {p : String} (q : String) (mode : Nat)
    (h : fs.mem p = true) : (mkdirStep mode fs q).mem p = true := by
  unfold mkdirStep
  split
  · exact h
  · simp only [FS.mem, List.any_append] at h ⊢
    rw [h]
    rfl
/-- After `mkdirStep`, its target exists. -/
theorem mem_mkdirStep_self (fs : FS) (q : String) (mode : Nat) :
    (mkdirStep mode fs q).mem q = true := by
  unfold mkdirStep
  split
  · rename_i h
    exact h
  · simp [FS.mem]
/-- Folding `mkdirStep` preserves existing directories. -/
theorem mem_foldl_of_mem (mode : Nat) (l : List String) :
    ∀ (fs : FS) (p : String), fs.mem p = true →
      (l.foldl (mkdirStep mode) fs).mem p = true := by
  induction l with
  | nil => intro fs p h; exact h
  | cons q rest ih =>
    intro fs p h
    exact ih (mkdirStep mode fs q) p (mem_mkdirStep q mode h)
/-- After folding `mkdirStep` over a path list, every listed path
exists. -/
theorem mem_foldl_self (mode : Nat) (l : List String) :
    ∀ (fs : FS) (p : String), p ∈ l → (l.foldl (mkdirStep mode) fs).mem p = true := by
  induction l with
  | nil => intro fs p h; cases h
  | cons q rest ih =>
    intro fs p h
    cases h with
    | head => exact mem_foldl_of_mem mode rest _ q (mem_mkdirStep_self fs q mode)
    | tail _ hm => exact ih (mkdirStep mode fs q) p hm
/-- Folding `mkdirStep` over paths that all exist changes nothing. -/
theorem foldl_mkdir_noop (mode : Nat) (l : List String) :
    ∀ fs : FS, (∀ q ∈ l, fs.mem q = true) → l.foldl (mkdirStep mode) fs = fs := by
  induction l with
  | nil => intro fs _; rfl
  | cons q rest ih =>
    intro fs h
    have hq : mkdirStep mode fs q = fs := by
      unfold mkdirStep
      rw [if_pos (h q (List.mem_cons_self q rest))]
    rw [List.foldl_cons, hq]
    exact ih fs (fun x hx => h x (List.mem_cons_of_mem q hx))
/-- Every directory entry present after the fold was either already
there or was created with the fold's mode. -/
theorem foldl_mkdir_modes (mode : Nat) (l : List String) :
    ∀ (fs : FS) (e : String × Nat), e ∈ (l.foldl (mkdirStep mode) fs).dirs →
      e ∈ fs.dirs ∨ e.2 = mode := by
  induction l with
  | nil => intro fs e h; exact Or.inl h
  | cons q rest ih =>
    intro fs e h
    rcases ih (mkdirStep mode fs q) e h with hm | hm
    · unfold mkdirStep at hm
      split at hm
      · exact Or.inl hm
      · rcases List.mem_append.mp hm with h1 | h1
        · exact Or.inl h1
        · right
          rw [List.mem_singleton.mp h1]
    · exact Or.inr hm
/-- C9 (amended): `MkdirAll` never fails — in particular an existing
directory is not an error and leaves the state untouched — it is
idempotent, and every directory it creates, intermediate components
included, is created with mode `0755` (`493`), not `0700`. -/
theorem claim_C9 (h : Harvest) (fs : FS) :
    (h.MkdirAll fs).2 = none ∧
    (fs.mem h.Dir = true → h.MkdirAll fs = (fs, none)) ∧
    (h.MkdirAll (h.MkdirAll fs).1 = ((h.MkdirAll fs).1, none)) ∧
    (∀ q mode, (q, mode) ∈ ((h.MkdirAll fs).1).dirs → (q, mode) ∈ fs.dirs ∨ mode = 493) := by
  refine ⟨?_, ?_, ?_, ?_⟩
  · unfold Harvest.MkdirAll
    split
    · rfl
    · rfl
  · intro hm
    unfold Harvest.MkdirAll
    rw [if_pos hm]
  · unfold Harvest.MkdirAll
    split
    · rfl
    · dsimp only
      split
      · rfl
      · unfold osMkdirAll
        rw [foldl_mkdir_noop _ _ _
          (fun q hq => mem_foldl_self _ (ancestorPaths h.Dir) fs q hq)]
  · intro q mode hmem
    unfold Harvest.MkdirAll at hmem
    split at hmem
    · exact Or.inl hmem
    · dsimp only at hmem
      rcases foldl_mkdir_modes _ (ancestorPaths h.Dir) fs (q, mode) hmem with h1 | h1
      · exact Or.inl h1
      · exact Or.inr h1
/-- A minimal endpoint identity for the `MkdirAll` witnesses: its cache
directory is `/b/IyN4`. -/
def cfgC9 : Harvest := { cfg0 with BaseURL := "x", Format := "", Set := "", baseDir := "/b" }
/-- C9, counterexample to the claim as stated: on an empty filesystem
the program creates `/b` and `/b/IyN4`, both with permission bits `493`
(octal `755`), not `448` (octal `700`) as the claim says. -/
theorem claim_C9_counterexample :
    ¬ (∀ e ∈ (Harvest.MkdirAll cfgC9 ⟨[]⟩).1.dirs, e.2 = 448) ∧
    (Harvest.MkdirAll cfgC9 ⟨[]⟩).1.dirs = [("/b", 493), ("/b/IyN4", 493)] := by
  constructor
  · decide
  · rfl
/-- C9, witness: after a first `MkdirAll` the directory exists and a
second call is a no-op, and a call on a filesystem that already has the
directory returns it unchanged with no error. -/
theorem claim_C9_witness :
    FS.mem (Harvest.MkdirAll cfgC9 ⟨[]⟩).1 cfgC9.Dir = true ∧
    Harvest.MkdirAll cfgC9 (Harvest.MkdirAll cfgC9 ⟨[]⟩).1 =
      ((Harvest.MkdirAll cfgC9 ⟨[]⟩).1, none) ∧
    Harvest.MkdirAll cfgC9 ⟨[("/b", 448), ("/b/IyN4", 448)]⟩ =
      (⟨[("/b", 448), ("/b/IyN4", 448)]⟩, none) := by
  refine ⟨by decide, (claim_C9 cfgC9 ⟨[]⟩).2.2.1, (claim_C9 cfgC9 _).2.1 (by decide)⟩
end Metha
